import Mathlib

/-!
Verification of the fixkit repair-search engine against its specification.

The definitions below are a shallow embedding of the repository's code:

* `src/fixkit/genetic/operators.py` — the mutation-operator classes, their
  `__eq__`/`__hash__` methods, their `mutate` methods and the `Mutator`
  (applier) that materialises an op list into an AST;
* `src/pyrep/candidate.py` — `GeneticCandidate` (`clone`, `offspring`);
* `src/fixkit/fitness/engine.py` — `Engine.evaluate`/`Worker.evaluate`
  memoisation;
* `src/pyrep/fitness/metric.py` — `GenProgFitness.fitness`;
* `src/fixkit/localization/normalization.py` — `normalize`;
* `src/pyrep/localization/location.py` — `Weighted.__init__`,
  `WeightedIdentifier`;
* `src/fixkit/search/search.py` — `ExhaustiveStrategy._mutate`;
* `src/fixkit/repair/pyae.py` — `AbstractAE.candidate_repairs`;
* `src/fixkit/genetic/crossover.py` — `OnePointCrossover.crossover`.

Machine reals (Python floats) are modelled as rationals; Python `dict`s as
association lists looked up with the embedded `__eq__`; Python lists that are
mutated in place (the candidate op lists) as cells of an explicit heap.
-/

namespace Fixkit

/-! ## Mutation operators (`fixkit/genetic/operators.py`)

Each concrete operator class becomes one constructor.  A constructor's fields
are exactly the data the Python object holds after `__init__` has run and all
construction-time random draws have been made:

* `identifier` — the target sid (`self.identifier`);
* `selection` — `self.selection_identifier`, drawn by
  `SelectionMutationOperator.__init__` via `random.choice(self.choices)`;
* `before` — the `InsertBefore`-vs-`InsertAfter` (resp. `MoveBefore`-vs-
  `MoveAfter`) draw made by `InsertBoth.__init__` (resp. `MoveBoth.__init__`);
* `tmpl` — the template instance of `ReplaceCardumen`, abstracted to a tag.

`ReplaceBinaryOperator`, `ReplaceComparisonOperator`, `ReplaceUnaryOperator`,
`ReplaceBooleanOperator`, `Rename`, `ModifyIfToTrue/False` and the
`InsertReturn*` classes draw their randomness inside `mutate`, not inside
`__init__`, so their objects carry only `identifier`.

The `choices` pool itself is also stored on every Python operator object
(`self.choices`), but no `__eq__`, `__hash__` or `mutate` method ever reads it
after construction, so it is not part of the embedded value.
-/
inductive Op where
  | Delete (identifier : Nat)
  | InsertBefore (identifier selection : Nat)
  | InsertAfter (identifier selection : Nat)
  | InsertBoth (identifier selection : Nat) (before : Bool)
  | Replace (identifier selection : Nat)
  | MoveBefore (identifier selection : Nat)
  | MoveAfter (identifier selection : Nat)
  | MoveBoth (identifier selection : Nat) (before : Bool)
  | Swap (identifier selection : Nat)
  | Copy (identifier : Nat)
  | ReplaceBinaryOperator (identifier : Nat)
  | ReplaceComparisonOperator (identifier : Nat)
  | ReplaceUnaryOperator (identifier : Nat)
  | ReplaceBooleanOperator (identifier : Nat)
  | Rename (identifier : Nat)
  | ModifyIfToTrue (identifier : Nat)
  | ModifyIfToFalse (identifier : Nat)
  | InsertReturn0 (identifier : Nat)
  | InsertReturnNone (identifier : Nat)
  | InsertReturnString (identifier : Nat)
  | InsertReturnList (identifier : Nat)
  | InsertReturnTuple (identifier : Nat)
  | ReplaceCardumen (identifier : Nat) (tmpl : Nat)
  deriving DecidableEq, Repr

/-- `self.identifier`, set by `MutationOperator.__init__`. -/
def Op.identifier : Op → Nat
  | .Delete i | .InsertBefore i _ | .InsertAfter i _ | .InsertBoth i _ _
  | .Replace i _ | .MoveBefore i _ | .MoveAfter i _ | .MoveBoth i _ _
  | .Swap i _ | .Copy i
  | .ReplaceBinaryOperator i | .ReplaceComparisonOperator i
  | .ReplaceUnaryOperator i | .ReplaceBooleanOperator i
  | .Rename i | .ModifyIfToTrue i | .ModifyIfToFalse i
  | .InsertReturn0 i | .InsertReturnNone i | .InsertReturnString i
  | .InsertReturnList i | .InsertReturnTuple i
  | .ReplaceCardumen i _ => i

/-- `self.__class__.__name__`, the first component of every operator's hash
tuple `(self.__class__.__name__, self.identifier)`
(`MutationOperator.__hash__`). -/
def Op.className : Op → String
  | .Delete _ => "Delete"
  | .InsertBefore _ _ => "InsertBefore"
  | .InsertAfter _ _ => "InsertAfter"
  | .InsertBoth _ _ _ => "InsertBoth"
  | .Replace _ _ => "Replace"
  | .MoveBefore _ _ => "MoveBefore"
  | .MoveAfter _ _ => "MoveAfter"
  | .MoveBoth _ _ _ => "MoveBoth"
  | .Swap _ _ => "Swap"
  | .Copy _ => "Copy"
  | .ReplaceBinaryOperator _ => "ReplaceBinaryOperator"
  | .ReplaceComparisonOperator _ => "ReplaceComparisonOperator"
  | .ReplaceUnaryOperator _ => "ReplaceUnaryOperator"
  | .ReplaceBooleanOperator _ => "ReplaceBooleanOperator"
  | .Rename _ => "Rename"
  | .ModifyIfToTrue _ => "ModifyIfToTrue"
  | .ModifyIfToFalse _ => "ModifyIfToFalse"
  | .InsertReturn0 _ => "InsertReturn0"
  | .InsertReturnNone _ => "InsertReturnNone"
  | .InsertReturnString _ => "InsertReturnString"
  | .InsertReturnList _ => "InsertReturnList"
  | .InsertReturnTuple _ => "InsertReturnTuple"
  | .ReplaceCardumen _ _ => "ReplaceCardumen"

/-- `MutationOperator.__hash__`: `hash((self.__class__.__name__,
self.identifier))`.  Every subclass's `__hash__` delegates to it via
`super().__hash__()`.  Python's `hash` of the tuple is modelled by the tuple
itself (injective over the values that occur). -/
def Op.pyHash (op : Op) : String × Nat :=
  (op.className, op.identifier)

/-- The `__eq__` methods of the operator classes, combined over the closed
set.  `Delete`/`Copy` compare by class and `identifier`; the selection
operators additionally by `selection_identifier`; `InsertBoth`/`MoveBoth`
additionally by the drawn `inserter`/`mover`; `ReplaceCardumen` by
`identifier` and template instance.  `ReplaceOperator.__eq__`,
`Rename.__eq__`, `ModifyIfCondition.__eq__` and `InsertReturn.__eq__` return
`False` unconditionally, whatever the operands. -/
def Op.pyEq : Op → Op → Bool
  | .Delete i, .Delete i' => i == i'
  | .InsertBefore i s, .InsertBefore i' s' => i == i' && s == s'
  | .InsertAfter i s, .InsertAfter i' s' => i == i' && s == s'
  | .InsertBoth i s b, .InsertBoth i' s' b' => i == i' && s == s' && b == b'
  | .Replace i s, .Replace i' s' => i == i' && s == s'
  | .MoveBefore i s, .MoveBefore i' s' => i == i' && s == s'
  | .MoveAfter i s, .MoveAfter i' s' => i == i' && s == s'
  | .MoveBoth i s b, .MoveBoth i' s' b' => i == i' && s == s' && b == b'
  | .Swap i s, .Swap i' s' => i == i' && s == s'
  | .Copy i, .Copy i' => i == i'
  | .ReplaceCardumen i t, .ReplaceCardumen i' t' => i == i' && t == t'
  | _, _ => false

/-! Construction: `mkOp` maps the constructor inputs (kind, target sid,
choices pool) together with the construction-time random draws (index of the
`random.choice` selection draw, the before/after draw, the template instance)
to the resulting operator object.  Two Python constructor calls with the same
inputs and the same draws yield objects with the same field values, i.e. the
same `Op`. -/

inductive OpKind where
  | delete | insertBefore | insertAfter | insertBoth | replace
  | moveBefore | moveAfter | moveBoth | swap | copy
  | replaceBinaryOperator | replaceComparisonOperator
  | replaceUnaryOperator | replaceBooleanOperator
  | rename | modifyIfToTrue | modifyIfToFalse
  | insertReturn0 | insertReturnNone | insertReturnString
  | insertReturnList | insertReturnTuple | replaceCardumen
  deriving DecidableEq, Repr

/-- The constructor inputs of an operator plus its construction-time random
draws.  `selectionDraw` is the index `random.choice(self.choices)` picks
(only meaningful for the selection kinds, on a non-empty pool);
`beforeDraw` is the `InsertBoth`/`MoveBoth` direction draw; `tmpl` is the
`ReplaceCardumen` template instance. -/
structure OpSpec where
  kind : OpKind
  identifier : Nat
  choices : List Nat
  selectionDraw : Nat
  beforeDraw : Bool
  tmpl : Nat
  deriving DecidableEq, Repr

/-- `SelectionMutationOperator.__init__`: `self.selection_identifier =
random.choice(self.choices)`, with the draw pinned to index
`s.selectionDraw`.  (On an empty pool Python raises `IndexError`; the
default `0` is never reached by a successful construction.) -/
def OpSpec.selection (s : OpSpec) : Nat :=
  s.choices.getD s.selectionDraw 0

/-- Operator construction: the operator object produced by calling the kind's
class with the given inputs when the random stream supplies the given
draws. -/
def mkOp (s : OpSpec) : Op :=
  match s.kind with
  | .delete => .Delete s.identifier
  | .insertBefore => .InsertBefore s.identifier s.selection
  | .insertAfter => .InsertAfter s.identifier s.selection
  | .insertBoth => .InsertBoth s.identifier s.selection s.beforeDraw
  | .replace => .Replace s.identifier s.selection
  | .moveBefore => .MoveBefore s.identifier s.selection
  | .moveAfter => .MoveAfter s.identifier s.selection
  | .moveBoth => .MoveBoth s.identifier s.selection s.beforeDraw
  | .swap => .Swap s.identifier s.selection
  | .copy => .Copy s.identifier
  | .replaceBinaryOperator => .ReplaceBinaryOperator s.identifier
  | .replaceComparisonOperator => .ReplaceComparisonOperator s.identifier
  | .replaceUnaryOperator => .ReplaceUnaryOperator s.identifier
  | .replaceBooleanOperator => .ReplaceBooleanOperator s.identifier
  | .rename => .Rename s.identifier
  | .modifyIfToTrue => .ModifyIfToTrue s.identifier
  | .modifyIfToFalse => .ModifyIfToFalse s.identifier
  | .insertReturn0 => .InsertReturn0 s.identifier
  | .insertReturnNone => .InsertReturnNone s.identifier
  | .insertReturnString => .InsertReturnString s.identifier
  | .insertReturnList => .InsertReturnList s.identifier
  | .insertReturnTuple => .InsertReturnTuple s.identifier
  | .replaceCardumen => .ReplaceCardumen s.identifier s.tmpl

/-- The class name each kind constructs (for relating hashes to inputs). -/
def OpKind.className (k : OpKind) : String :=
  (mkOp ⟨k, 0, [], 0, false, 0⟩).className

/-- The kinds whose `__eq__` is structural.  The remaining kinds —
`ReplaceBinaryOperator`, `ReplaceComparisonOperator`, `ReplaceUnaryOperator`,
`ReplaceBooleanOperator` (inheriting `ReplaceOperator.__eq__`), `Rename`,
`ModifyIfToTrue`/`ModifyIfToFalse` (inheriting `ModifyIfCondition.__eq__`)
and the five `InsertReturn*` classes (inheriting `InsertReturn.__eq__`) —
have an `__eq__` that returns `False` unconditionally. -/
def OpKind.eqSupported : OpKind → Bool
  | .delete | .insertBefore | .insertAfter | .insertBoth | .replace
  | .moveBefore | .moveAfter | .moveBoth | .swap | .copy
  | .replaceCardumen => true
  | _ => false

/-- C1 (counterexample): the claim fails on the code.  A `ModifyIfToTrue`
operator built on target sid 0 — there are no choices and no random draws for
this kind, so any two such constructions have identical field values — does
not compare equal to an identically constructed one: `ModifyIfCondition.__eq__`
returns `False` unconditionally. -/
theorem modifyIfToTrue_not_self_equal :
    Op.pyEq (mkOp ⟨.modifyIfToTrue, 0, [], 0, false, 0⟩)
      (mkOp ⟨.modifyIfToTrue, 0, [], 0, false, 0⟩) = false := by
  decide

/-- C1 (amended): any two operators constructed from the same inputs (target
sid, choices pool) with the same random draws always have equal hashes — the
hash is `(class name, target sid)` for every kind — but compare equal under
`==` only for the kinds `Delete`, `InsertBefore/After/Both`, `Replace`,
`MoveBefore/After/Both`, `Swap`, `Copy` and `ReplaceCardumen`; for the
`ReplaceOperator` family, `Rename`, the `ModifyIfCondition` family and the
`InsertReturn` family, `==` yields `False` even on identically constructed
operators. -/
theorem op_same_construction_hash_eq (s : OpSpec) :
    Op.pyHash (mkOp s) = (s.kind.className, s.identifier) ∧
      Op.pyEq (mkOp s) (mkOp s) = s.kind.eqSupported := by
  obtain ⟨k, i, c, d, b, t⟩ := s
  cases k <;>
    simp [mkOp, Op.pyEq, Op.pyHash, Op.className, OpKind.className,
      OpKind.eqSupported, Op.identifier]

/-! ## GenProg fitness (`pyrep/fitness/metric.py`)

`GenProgFitness` stores the expected-passing set `self.passing`, the
expected-failing set `self.failing` and the weights `w_pos_t` (default 1) and
`w_neg_t` (default 10).  `fitness(passing, failing)` combines the reported
passing set with the expected sets; Python test-id sets become
`Finset String`, floats become rationals. -/

structure GenProgFitness where
  passing : Finset String
  failing : Finset String
  w_pos_t : ℚ
  w_neg_t : ℚ

/-- `GenProgFitness.__init__` with the default weights `w_pos_t=1`,
`w_neg_t=10`. -/
def GenProgFitness.mkDefault (passing failing : Finset String) :
    GenProgFitness :=
  ⟨passing, failing, 1, 10⟩

/-- `GenProgFitness.fitness`: `(w_pos_t * len(passing & self.passing) +
w_neg_t * len(passing & self.failing)) / (w_pos_t * len(self.passing) +
w_neg_t * len(self.failing))`.  A zero denominator raises
`ZeroDivisionError`, modelled as `none`.  The reported `failing` argument is
accepted but unused, exactly as in the code. -/
def GenProgFitness.fitness (m : GenProgFitness)
    (passing _failing : Finset String) : Option ℚ :=
  let den : ℚ := m.w_pos_t * m.passing.card + m.w_neg_t * m.failing.card
  if den = 0 then none
  else
    some ((m.w_pos_t * ((passing ∩ m.passing).card : ℚ)
      + m.w_neg_t * ((passing ∩ m.failing).card : ℚ)) / den)

/-- C4: for all expected sets `P`, `F` and any reported sets, the GenProg
fitness with the default weights `w⁺=1`, `w⁻=10` is
`(w⁺·|P ∩ passing| + w⁻·|F ∩ passing|) / (w⁺·|P| + w⁻·|F|)`, and this score
lies in `[0, 1]`.  (`P ∪ F` must be non-empty: on two empty expected sets the
formula's denominator is zero and the code raises `ZeroDivisionError`.) -/
theorem genprog_fitness_formula (P F reported failing : Finset String)
    (h : (P ∪ F).Nonempty) :
    ∃ q : ℚ,
      (GenProgFitness.mkDefault P F).fitness reported failing = some q ∧
      q = (1 * ((reported ∩ P).card : ℚ) + 10 * ((reported ∩ F).card : ℚ)) /
          (1 * (P.card : ℚ) + 10 * (F.card : ℚ)) ∧
      0 ≤ q ∧ q ≤ 1 := by
  have hcard : 0 < P.card + F.card := by
    rcases h with ⟨x, hx⟩
    rcases Finset.mem_union.mp hx with hx | hx
    · have := Finset.card_pos.mpr ⟨x, hx⟩; omega
    · have := Finset.card_pos.mpr ⟨x, hx⟩; omega
  have hden : (0 : ℚ) < 1 * (P.card : ℚ) + 10 * (F.card : ℚ) := by
    have hP : (0 : ℚ) ≤ (P.card : ℚ) := by positivity
    have hF : (0 : ℚ) ≤ (F.card : ℚ) := by positivity
    rcases Nat.lt_or_ge 0 P.card with hp | hp
    · have : (1 : ℚ) ≤ (P.card : ℚ) := by exact_mod_cast hp
      linarith
    · have hf : 0 < F.card := by omega
      have : (1 : ℚ) ≤ (F.card : ℚ) := by exact_mod_cast hf
      linarith
  have hnum_nonneg :
      (0 : ℚ) ≤ 1 * ((reported ∩ P).card : ℚ) + 10 * ((reported ∩ F).card : ℚ) := by
    positivity
  have hnum_le :
      1 * ((reported ∩ P).card : ℚ) + 10 * ((reported ∩ F).card : ℚ) ≤
        1 * (P.card : ℚ) + 10 * (F.card : ℚ) := by
    have h1 : (reported ∩ P).card ≤ P.card :=
      Finset.card_le_card Finset.inter_subset_right
    have h2 : (reported ∩ F).card ≤ F.card :=
      Finset.card_le_card Finset.inter_subset_right
    have h1' : ((reported ∩ P).card : ℚ) ≤ (P.card : ℚ) := by exact_mod_cast h1
    have h2' : ((reported ∩ F).card : ℚ) ≤ (F.card : ℚ) := by exact_mod_cast h2
    linarith
  refine ⟨_, ?_, rfl, ?_, ?_⟩
  · unfold GenProgFitness.fitness GenProgFitness.mkDefault
    simp only []
    rw [if_neg (by exact ne_of_gt hden)]
  · exact div_nonneg hnum_nonneg (le_of_lt hden)
  · exact (div_le_one hden).mpr hnum_le

/-- C4 (witness): the theorem applied at `P = {"t1"}`, `F = {"t2"}`,
reported passing `{"t1", "t2"}`. -/
theorem genprog_fitness_formula_witness :
    ∃ q : ℚ,
      (GenProgFitness.mkDefault {"t1"} {"t2"}).fitness {"t1", "t2"} ∅ = some q ∧
      q = (1 * (({"t1", "t2"} ∩ ({"t1"} : Finset String)).card : ℚ)
            + 10 * (({"t1", "t2"} ∩ ({"t2"} : Finset String)).card : ℚ)) /
          (1 * ((({"t1"} : Finset String)).card : ℚ)
            + 10 * ((({"t2"} : Finset String)).card : ℚ)) ∧
      0 ≤ q ∧ q ≤ 1 :=
  genprog_fitness_formula {"t1"} {"t2"} {"t1", "t2"} ∅ (by decide)

/-! ## Localisation weights (`pyrep/localization/location.py`,
`fixkit/localization/normalization.py`)

A raw suggestion weight is a Python float that may be NaN; it is modelled as
`Option ℚ` with `none` for NaN.  `Weighted.__init__` stores
`0 if math.isnan(weight) else weight`. -/

/-- `Weighted.__init__`: NaN becomes 0, every other weight is stored as is. -/
def Weighted.init : Option ℚ → ℚ
  | none => 0
  | some w => w

/-- Python's `max` over a non-empty list (left fold keeping the larger
value); `none` models the `ValueError` raised on an empty list. -/
def pymax : List ℚ → Option ℚ
  | [] => none
  | x :: xs => some (xs.foldl max x)

/-- Python's `min` over a non-empty list. -/
def pymin : List ℚ → Option ℚ
  | [] => none
  | x :: xs => some (xs.foldl min x)

/-- `normalize(weighted_locations)` from
`fixkit/localization/normalization.py`, acting on the list of stored weights:
compute `maximum` and `minimum`; if `minimum < 0` keep it and grow `maximum`
by `-minimum`, otherwise reset `minimum` to 0; if the resulting `maximum` is
0 use 1 instead; then map every weight to `(w - minimum) / maximum`. -/
def normalize (ws : List ℚ) : Option (List ℚ) :=
  match ws with
  | [] => none
  | x :: xs =>
    let maximum := xs.foldl max x
    let minimum := xs.foldl min x
    let p := if minimum < 0 then (minimum, maximum - minimum) else (0, maximum)
    let den := if p.2 = 0 then 1 else p.2
    some ((x :: xs).map fun w => (w - p.1) / den)

/-- C5 (counterexample): normalising the stored weights of the suggestion
list built from raw weights `[-0.5, 0.0, 0.5, NaN]` does not produce
`[0.0, 0.5, 1.0, 0.0]`: NaN is stored as 0 at construction, and 0 shifts to
0.5 like the second entry. -/
theorem normalize_nan_example_not_spec :
    normalize
        ([some (-1/2), some 0, some (1/2), none].map Weighted.init) ≠
      some [0, 1/2, 1, 0] := by
  norm_num [normalize, Weighted.init]

/-- C5 (amended): normalising the stored weights of the suggestion list built
from raw weights `[-0.5, 0.0, 0.5, NaN]` produces, in order,
`[0.0, 0.5, 1.0, 0.5]` — the NaN entry is stored as 0 and therefore
normalises to 0.5, exactly as the raw weight 0 does. -/
theorem normalize_nan_example :
    normalize
        ([some (-1/2), some 0, some (1/2), none].map Weighted.init) =
      some [0, 1/2, 1, 1/2] := by
  norm_num [normalize, Weighted.init]

/-- `x` is a lower bound of its own max-fold. -/
theorem le_foldl_max : ∀ (xs : List ℚ) (x : ℚ), x ≤ xs.foldl max x
  | [], _ => le_refl _
  | y :: ys, x => le_trans (le_max_left x y) (le_foldl_max ys (max x y))

/-- Every member of `xs` is bounded by the max-fold of `xs` over any seed. -/
theorem mem_le_foldl_max :
    ∀ (xs : List ℚ) (x w : ℚ), w ∈ xs → w ≤ xs.foldl max x
  | y :: ys, x, w, h => by
    rcases List.mem_cons.mp h with rfl | h
    · exact le_trans (le_max_right x w) (le_foldl_max ys (max x w))
    · exact mem_le_foldl_max ys (max x y) w h

/-- `x` is an upper bound of its own min-fold. -/
theorem foldl_min_le : ∀ (xs : List ℚ) (x : ℚ), xs.foldl min x ≤ x
  | [], _ => le_refl _
  | y :: ys, x => le_trans (foldl_min_le ys (min x y)) (min_le_left x y)

/-- The min-fold of `xs` over any seed bounds every member of `xs`. -/
theorem foldl_min_le_mem :
    ∀ (xs : List ℚ) (x w : ℚ), w ∈ xs → xs.foldl min x ≤ w
  | y :: ys, x, w, h => by
    rcases List.mem_cons.mp h with rfl | h
    · exact le_trans (foldl_min_le ys (min x w)) (min_le_right x w)
    · exact foldl_min_le_mem ys (min x y) w h

/-- C6: on every non-empty list of stored (finite) weights, `normalize`
succeeds and every resulting weight lies in `[0, 1]`. -/
theorem normalize_weights_in_unit_interval (ws : List ℚ) (h : ws ≠ []) :
    ∃ ws', normalize ws = some ws' ∧ ∀ w' ∈ ws', 0 ≤ w' ∧ w' ≤ 1 := by
  cases ws with
  | nil => exact absurd rfl h
  | cons x xs =>
    set M := xs.foldl max x with hM
    set m := xs.foldl min x with hm
    have hbound : ∀ w ∈ x :: xs, m ≤ w ∧ w ≤ M := by
      intro w hw
      rcases List.mem_cons.mp hw with rfl | hw
      · exact ⟨foldl_min_le xs w, le_foldl_max xs w⟩
      · exact ⟨foldl_min_le_mem xs x w hw, mem_le_foldl_max xs x w hw⟩
    have hmM : m ≤ M := le_trans (foldl_min_le xs x) (le_foldl_max xs x)
    refine ⟨_, rfl, ?_⟩
    intro w' hw'
    rcases List.mem_map.mp hw' with ⟨w, hw, rfl⟩
    obtain ⟨hmw, hwM⟩ := hbound w hw
    by_cases hneg : m < 0
    · simp only [if_pos hneg]
      by_cases hz : M - m = 0
      · have hwm : w = m := le_antisymm (by linarith [hwM]) hmw
        simp only [hz, if_pos rfl, hwm]
        norm_num
      · have hpos : 0 < M - m := lt_of_le_of_ne (by linarith) (Ne.symm hz)
        simp only [if_neg hz]
        constructor
        · exact div_nonneg (by linarith) (le_of_lt hpos)
        · exact (div_le_one hpos).mpr (by linarith)
    · simp only [if_neg hneg]
      have hm0 : 0 ≤ m := le_of_not_lt hneg
      by_cases hz : M = 0
      · have hw0 : w = 0 := le_antisymm (hz ▸ hwM) (le_trans hm0 hmw)
        simp only [hz, if_pos rfl, hw0]
        norm_num
      · have hpos : 0 < M := lt_of_le_of_ne (le_trans hm0 hmM) (Ne.symm hz)
        simp only [if_neg hz]
        constructor
        · exact div_nonneg (by linarith) (le_of_lt hpos)
        · exact (div_le_one hpos).mpr (by linarith)

/-- C6 (witness): the theorem applied to the concrete weight list
`[-1/2, 0, 1/2, 0]`, whose normalisation is `[0, 1/2, 1, 1/2]`. -/
theorem normalize_weights_in_unit_interval_witness :
    ∃ ws', normalize [-1/2, 0, 1/2, 0] = some ws' ∧
      ∀ w' ∈ ws', 0 ≤ w' ∧ w' ≤ 1 :=
  normalize_weights_in_unit_interval [-1/2, 0, 1/2, 0] (by decide)

/-! ## Candidates (`pyrep/candidate.py`) — value view

`GeneticCandidate` carries a source root, the ordered op list, a generation
counter and a fitness.  The statement table, trees, files and lines
dictionaries are shared by reference between all candidates of one run and
never consulted by the operations verified here, so they are omitted from the
value view.  (The op list is itself a shared mutable Python list; the heap
model below captures that.  The value view is exact for `offspring`, which
rebinds `candidate.mutations` to a fresh list, and for all read-only
access.) -/

structure GeneticCandidate where
  src : String
  mutations : List Op
  gen : Nat
  fitness : ℚ
  deriving DecidableEq, Repr

/-- `GeneticCandidate.offspring(mutations, change_gen)`: clone (bumping the
generation when `change_gen`) and rebind the op list to `mutations`. -/
def GeneticCandidate.offspring (c : GeneticCandidate) (mutations : List Op)
    (change_gen : Bool) : GeneticCandidate :=
  { c with
    mutations := mutations
    gen := if change_gen then c.gen + 1 else c.gen }

/-! ## One-point crossover (`fixkit/genetic/crossover.py`) -/

/-- `OnePointCrossover.crossover(parent_x, parent_y)` with the two
`random.randint(0, len(parent))` draws pinned to `indexX` and `indexY`:
slice both op lists at their cut index and recombine crosswise, producing the
offspring via `offspring` (which bumps the generation). -/
def OnePointCrossover.crossover (indexX indexY : Nat)
    (px py : GeneticCandidate) : GeneticCandidate × GeneticCandidate :=
  let ax := px.mutations.take indexX
  let bx := px.mutations.drop indexX
  let ay := py.mutations.take indexY
  let bys := py.mutations.drop indexY
  (px.offspring (ax ++ bys) true, py.offspring (ay ++ bx) true)

/-- C9: one-point crossover with cut indices `i ∈ [0, |px|]` and
`j ∈ [0, |py|]` returns offspring whose op lists are `px[:i] + py[j:]` and
`py[:j] + px[i:]`. -/
theorem crossover_one_point (px py : GeneticCandidate) (i j : Nat)
    (_hi : i ≤ px.mutations.length) (_hj : j ≤ py.mutations.length) :
    (OnePointCrossover.crossover i j px py).1.mutations =
        px.mutations.take i ++ py.mutations.drop j ∧
      (OnePointCrossover.crossover i j px py).2.mutations =
        py.mutations.take j ++ px.mutations.drop i :=
  ⟨rfl, rfl⟩

/-- C9 (witness): for `px.ops = [A, B] = [Delete 0, Delete 1]`,
`py.ops = [C, D] = [Delete 2, Delete 3]` and drawn cut indices `i = j = 1`,
the offspring op lists are `[A, D]` and `[C, B]`. -/
theorem crossover_one_point_witness :
    (OnePointCrossover.crossover 1 1
          ⟨"src", [.Delete 0, .Delete 1], 0, 0⟩
          ⟨"src", [.Delete 2, .Delete 3], 0, 0⟩).1.mutations =
        [.Delete 0, .Delete 3] ∧
      (OnePointCrossover.crossover 1 1
          ⟨"src", [.Delete 0, .Delete 1], 0, 0⟩
          ⟨"src", [.Delete 2, .Delete 3], 0, 0⟩).2.mutations =
        [.Delete 2, .Delete 1] := by
  have h := crossover_one_point
    ⟨"src", [.Delete 0, .Delete 1], 0, 0⟩
    ⟨"src", [.Delete 2, .Delete 3], 0, 0⟩ 1 1 (by decide) (by decide)
  simpa using h

/-! ## Fitness engine memoisation (`fixkit/fitness/engine.py`)

`Engine.evaluate` (and identically `Worker.evaluate`) looks each candidate's
`tuple(candidate.mutations)` up in the shared `pre_calculated` dict; on a hit
it assigns the stored fitness, on a miss it runs
`self.transformer.transform(...)` followed by
`self.fitness.evaluate_fitness(...)` — the materialise-and-test pipeline —
and stores the result under the key.

The dict is modelled as an association list probed with the embedded
operator `__eq__` (tuples compare by length and element-wise `==`; CPython's
identity fast path only equates objects the embedding already identifies).
The pipeline is abstracted as a function `oracle` of the op list — the
applier is deterministic and the evaluation directory is rebuilt from the op
list — and each evaluation reports whether the pipeline ran. -/

/-- Python tuple equality over op tuples: equal length and element-wise
`==`. -/
def listPyEq : List Op → List Op → Bool
  | [], [] => true
  | a :: as', b :: bs => a.pyEq b && listPyEq as' bs
  | _, _ => false

/-- The memoisation dict `pre_calculated`. -/
abbrev Memo := List (List Op × ℚ)

/-- `key in dict` / `dict[key]`: first entry whose key compares equal. -/
def memoLookup : Memo → List Op → Option ℚ
  | [], _ => none
  | (k, v) :: rest, key =>
    if listPyEq key k then some v else memoLookup rest key

/-- `dict[key] = value`: replace the entry whose key compares equal, or
append. -/
def memoInsert : Memo → List Op → ℚ → Memo
  | [], key, v => [(key, v)]
  | (k, v') :: rest, key, v =>
    if listPyEq key k then (key, v) :: rest
    else (k, v') :: memoInsert rest key v

/-- The body of `Engine.evaluate`'s per-candidate step (also
`Worker.evaluate`): memo hit assigns the stored fitness; memo miss runs the
pipeline, assigns and stores.  The boolean records whether the pipeline
(materialise + test oracle) was invoked. -/
def Engine.evaluateOne (oracle : List Op → ℚ) (memo : Memo)
    (c : GeneticCandidate) : Memo × GeneticCandidate × Bool :=
  match memoLookup memo c.mutations with
  | some f => (memo, { c with fitness := f }, false)
  | none =>
    let f := oracle c.mutations
    (memoInsert memo c.mutations f, { c with fitness := f }, true)

/-- `Engine.evaluate`: fold the per-candidate step over the candidate list,
threading the memo. -/
def Engine.evaluate (oracle : List Op → ℚ) (memo : Memo) :
    List GeneticCandidate → Memo × List (GeneticCandidate × Bool)
  | [] => (memo, [])
  | c :: cs =>
    let r := Engine.evaluateOne oracle memo c
    let rest := Engine.evaluate oracle r.1 cs
    (rest.1, (r.2.1, r.2.2) :: rest.2)

/-- An insertion of a missing key never changes the result of looking up a
key that was already present. -/
theorem memoLookup_insert_of_miss (m : Memo) (key k : List Op) (v f : ℚ)
    (hhit : memoLookup m key = some v) (hmiss : memoLookup m k = none) :
    memoLookup (memoInsert m k f) key = some v := by
  induction m with
  | nil => simp [memoLookup] at hhit
  | cons e rest ih =>
    obtain ⟨k', v'⟩ := e
    by_cases hk : listPyEq k k'
    · simp [memoLookup, hk] at hmiss
    · simp only [memoLookup, memoInsert, if_neg hk] at hhit hmiss ⊢
      by_cases hkey : listPyEq key k'
      · simpa [memoLookup, hkey] using hhit
      · simp only [memoLookup, if_neg hkey] at hhit ⊢
        exact ih hhit hmiss

/-- C3: the engine's memoisation.  (a) A memo hit assigns the stored fitness
and does not run the materialise-and-test pipeline, leaving the memo
unchanged; (b) a memo miss runs the pipeline, assigns the computed fitness
and stores it under the op-list key; (c) with the memo pre-seeded with
`[Delete(0)] ↦ 0.5`, every candidate of any later batch whose op list is
`[Delete(0)]` is assigned fitness `0.5` and never invokes the pipeline. -/
theorem engine_memoisation (oracle : List Op → ℚ) :
    (∀ (memo : Memo) (c : GeneticCandidate) (f : ℚ),
        memoLookup memo c.mutations = some f →
        Engine.evaluateOne oracle memo c = (memo, { c with fitness := f }, false)) ∧
    (∀ (memo : Memo) (c : GeneticCandidate),
        memoLookup memo c.mutations = none →
        Engine.evaluateOne oracle memo c =
          (memoInsert memo c.mutations (oracle c.mutations),
            { c with fitness := oracle c.mutations }, true)) ∧
    (∀ (cs : List GeneticCandidate) (r : GeneticCandidate × Bool),
        r ∈ (Engine.evaluate oracle [([Op.Delete 0], 1/2)] cs).2 →
        r.1.mutations = [Op.Delete 0] →
        r.1.fitness = 1/2 ∧ r.2 = false) := by
  refine ⟨?_, ?_, ?_⟩
  · intro memo c f h
    unfold Engine.evaluateOne
    rw [h]
  · intro memo c h
    unfold Engine.evaluateOne
    rw [h]
  · have main :
        ∀ (cs : List GeneticCandidate) (m : Memo),
          memoLookup m [Op.Delete 0] = some (1/2) →
          ∀ r ∈ (Engine.evaluate oracle m cs).2,
            r.1.mutations = [Op.Delete 0] → r.1.fitness = 1/2 ∧ r.2 = false := by
      intro cs
      induction cs with
      | nil => intro m _ r hr; simp [Engine.evaluate] at hr
      | cons c cs ih =>
        intro m hm r hr hkey
        simp only [Engine.evaluate, List.mem_cons] at hr
        rcases hr with rfl | hr
        · unfold Engine.evaluateOne
          cases hc : memoLookup m c.mutations with
          | some f =>
            simp only [hc]
            have : c.mutations = [Op.Delete 0] := by
              have := hkey
              unfold Engine.evaluateOne at this
              rw [hc] at this
              simpa using this
            rw [this] at hc
            rw [hm] at hc
            simpa using (Option.some.inj hc).symm
          | none =>
            exfalso
            have hmut : c.mutations = [Op.Delete 0] := by
              have := hkey
              unfold Engine.evaluateOne at this
              rw [hc] at this
              simpa using this
            rw [hmut, hm] at hc
            exact Option.noConfusion hc
        · refine ih (Engine.evaluateOne oracle m c).1 ?_ r hr hkey
          unfold Engine.evaluateOne
          cases hc : memoLookup m c.mutations with
          | some f => simpa using hm
          | none =>
            simpa using
              memoLookup_insert_of_miss m [Op.Delete 0] c.mutations (1/2) _ hm hc
    intro cs r hr hkey
    exact main cs [([Op.Delete 0], 1/2)] (by simp [memoLookup, listPyEq, Op.pyEq])
      r hr hkey

/-- C3 (witness): pre-seed the memo with `[Delete(0)] ↦ 0.5` and evaluate a
candidate with exactly that op list under an oracle that would return 0: the
evaluation emits the candidate with fitness `0.5` and the pipeline flag
`false`. -/
theorem engine_memoisation_witness :
    (⟨"src", [Op.Delete 0], 0, 1/2⟩, false) ∈
        (Engine.evaluate (fun _ => 0) [([Op.Delete 0], 1/2)]
          [⟨"src", [Op.Delete 0], 0, 0⟩]).2 ∧
      ((⟨"src", [Op.Delete 0], 0, 1/2⟩ : GeneticCandidate).fitness = 1/2 ∧
        false = false) := by
  constructor
  · simp [Engine.evaluate, Engine.evaluateOne, memoLookup, listPyEq, Op.pyEq]
  · exact (engine_memoisation (fun _ => 0)).2.2
      [⟨"src", [Op.Delete 0], 0, 0⟩]
      (⟨"src", [Op.Delete 0], 0, 1/2⟩, false)
      (by simp [Engine.evaluate, Engine.evaluateOne, memoLookup, listPyEq,
            Op.pyEq])
      rfl

/-! ## Candidates (`pyrep/candidate.py`) — heap view of the op list

The op list of a Python candidate is a mutable list object.  To reason about
sharing, candidates here hold a reference (index) into an explicit heap of
lists.  `GeneticCandidate.__init__` executes `self.mutations = mutations or
list()` — when the passed list is empty (or `None`) a *fresh* empty list is
allocated, otherwise the very same list object is bound. -/

/-- The heap of op-list objects; a reference is an index. -/
abbrev Heap := List (List Op)

/-- Dereference a list object. -/
def heapGet (h : Heap) (r : Nat) : List Op := h.getD r []

/-- A candidate holding a reference to its op-list object. -/
structure GCRef where
  src : String
  mutationsRef : Nat
  gen : Nat
  fitness : ℚ
  deriving Repr

/-- The op list a candidate currently sees. -/
def GCRef.ops (c : GCRef) (h : Heap) : List Op := heapGet h c.mutationsRef

/-- `GeneticCandidate.__init__` with an existing list object passed for
`mutations`: `self.mutations = mutations or list()` binds the same object
when it is non-empty and allocates a fresh empty list when it is empty. -/
def GCRef.init (h : Heap) (src : String) (mutationsRef : Nat)
    (gen : Nat) (fitness : ℚ) : Heap × GCRef :=
  if (heapGet h mutationsRef).isEmpty then
    (h ++ [[]], ⟨src, h.length, gen, fitness⟩)
  else
    (h, ⟨src, mutationsRef, gen, fitness⟩)

/-- `GeneticCandidate.clone(change_gen)`: construct a new candidate passing
`mutations=self.mutations` (the same list object), `gen=self.gen + 1 if
change_gen else self.gen` and `fitness=self.fitness`. -/
def GCRef.clone (c : GCRef) (h : Heap) (change_gen : Bool) : Heap × GCRef :=
  GCRef.init h c.src c.mutationsRef
    (if change_gen then c.gen + 1 else c.gen) c.fitness

/-- `candidate.mutations.append(op)`: in-place append to the referenced list
object. -/
def heapAppend (h : Heap) (r : Nat) (op : Op) : Heap :=
  h.set r (heapGet h r ++ [op])

/-- `GeneticRepair.mutate(selection)` (`fixkit/repair/repair.py`): clone the
selected candidate (bumping the generation), then append one freshly drawn
operator per suggestion that passed the mutation-probability draw.  The
drawn operators are passed in as `drawnOps`. -/
def GeneticRepair.mutate (h : Heap) (selection : GCRef) (drawnOps : List Op) :
    Heap × GCRef :=
  let hc := selection.clone h true
  (drawnOps.foldl (fun acc op => heapAppend acc hc.2.mutationsRef op) hc.1,
    hc.2)

/-- C2 (failing input): a candidate whose op list is `[Delete(0)]` is cloned
and the clone receives one appended operator `Delete(1)`, exactly as
evolutionary mutation does — and the *original* candidate's op list becomes
`[Delete(0), Delete(1)]`: `clone` binds the same list object whenever the op
list is non-empty, so the append is visible through the parent. -/
theorem mutate_corrupts_parent_op_list :
    (⟨"src", 0, 0, 0⟩ : GCRef).ops
        (GeneticRepair.mutate [[Op.Delete 0]] ⟨"src", 0, 0, 0⟩
          [Op.Delete 1]).1 =
      [Op.Delete 0, Op.Delete 1] := by
  rfl

/-! ## Adaptive AE enumeration (`fixkit/repair/pyae.py`)

`AbstractAE.candidate_repairs(model)` enumerates op tuples of each length
`i = 1 … k`.  For each `i` it creates `i` generators (`repair_strategy`),
primes `current_state` with each generator's first item, yields it, and then
loops: try to advance the generator at index `current` (starting at 0); on
success write the item into `current_state[current]`, set
`current = max(0, current - 1)` and yield a copy of the state; on
`StopIteration` replace the exhausted generator with a fresh one — without
advancing it — and move on to `current + 1`; stop when
`current = len(generators)`.

`PyAE.repair_strategy` ignores its `model` argument and deterministically
yields the same edit stream on every invocation; the stream is the parameter
`gen` below (the claim's scenario: `Delete` edits for the sids in
suggestion order).  Each emitted candidate is
`initial_candidate.offspring(current_state[:])`; only the op list matters, so
the embedding returns the op lists. -/

/-- The advancement loop of `candidate_repairs` for one tuple length.
`counts` holds, per slot, how many items the slot's current generator
instance has already produced; `state` is `current_state`.  The `fuel`
argument dominates the number of loop iterations (the loop terminates: each
iteration either consumes an item from a slot or retires an exhausted slot to
the right), so with the bound `aeFuel` below the recursion never truncates;
it exists only to make the recursion structural. -/
def aeLoop (gen : List Op) : Nat → List Nat → List Op → Nat → List (List Op)
  | 0, _, _, _ => []
  | fuel+1, counts, state, current =>
    if current < counts.length then
      match gen.get? (counts.getD current 0) with
      | some op =>
        let state' := state.set current op
        state' ::
          aeLoop gen fuel (counts.set current (counts.getD current 0 + 1))
            state' (current - 1)
      | none => aeLoop gen fuel (counts.set current 0) state (current + 1)
    else []

/-- Fuel bound strictly dominating the iteration count of `aeLoop` for a
stream of length `n` and tuple length `i` (at most `(n+1)^i` successful
advances, each followed by at most `i` retirements). -/
def aeFuel (gen : List Op) (i : Nat) : Nat :=
  (gen.length + 2) ^ (i + 1) * (i + 1) + 1

/-- One tuple length `i` of `candidate_repairs`: prime every slot with the
stream's first item, yield, then run the advancement loop.  (On an empty
stream the priming `next` raises, aborting the enumeration; the claims only
concern non-empty streams.) -/
def aePhase (gen : List Op) (i : Nat) : List (List Op) :=
  match gen with
  | [] => []
  | g0 :: _ =>
    let state0 := List.replicate i g0
    state0 :: aeLoop gen (aeFuel gen i) (List.replicate i 1) state0 0

/-- `AbstractAE.candidate_repairs`: concatenate the emissions for tuple
lengths `1 … k`. -/
def candidateRepairs (gen : List Op) (k : Nat) : List (List Op) :=
  (List.range k).flatMap fun j => aePhase gen (j + 1)

/-- The delete-edit stream of the claim's scenario: sids `{0, 1, 2}` in
suggestion order. -/
def deleteStream : List Op := [.Delete 0, .Delete 1, .Delete 2]

/-- Modelled from the spec's words (for comparison only): the order the
claim asserts — all length-1 tuples, then the length-2 tuples with the
right-most generator incremented first, odometer-style without
repetition. -/
def specClaimedOrder : List (List Op) :=
  [[.Delete 0], [.Delete 1], [.Delete 2]] ++
    (List.range 3).flatMap fun i =>
      (List.range 3).map fun j => [.Delete i, .Delete j]

/-- C8 (counterexample): at depth bound `k = 2` over the delete stream for
sids `{0, 1, 2}`, the fifth emitted op list is `[D(1), D(0)]`, not the
`[D(0), D(1)]` the claimed right-most-first order demands, and the emitted
sequence differs from the claimed one: the code advances the *left-most*
generator first. -/
theorem candidate_repairs_order_not_spec :
    (candidateRepairs deleteStream 2).get? 4 = some [.Delete 1, .Delete 0] ∧
      specClaimedOrder.get? 4 = some [.Delete 0, .Delete 1] ∧
      candidateRepairs deleteStream 2 ≠ specClaimedOrder := by
  decide

/-- C8 (amended): at `k = 2` over the delete stream for sids `{0, 1, 2}` the
generator emits, in order: the three length-1 tuples `[D(0)], [D(1)],
[D(2)]`, then the length-2 tuples starting from `[D(0), D(0)]` with the
*left-most* slot advanced first; when a slot's generator is exhausted it is
replaced by a fresh one and the slot to its right advanced, re-emitting the
tuple with the stale left entry before the fresh generator is drawn from
again (so `[D(2), D(1)]` and `[D(2), D(2)]` each appear twice). -/
theorem candidate_repairs_order :
    candidateRepairs deleteStream 2 =
      [[.Delete 0], [.Delete 1], [.Delete 2],
       [.Delete 0, .Delete 0], [.Delete 1, .Delete 0], [.Delete 2, .Delete 0],
       [.Delete 2, .Delete 1], [.Delete 0, .Delete 1], [.Delete 1, .Delete 1],
       [.Delete 2, .Delete 1], [.Delete 2, .Delete 2], [.Delete 0, .Delete 2],
       [.Delete 1, .Delete 2], [.Delete 2, .Delete 2]] := by
  decide

/-! ## The applier (`fixkit/genetic/operators.py`, `Mutator` and the
per-operator `mutate` methods)

Python AST nodes become `PyAST.node kind sid children`.  The statement index
labels every statement node with its sid; distinct statement objects carry
distinct sids, so object identity — which the `Mutator` relies on when it
keys `mutation_map` by the original statement objects — is represented by
the sid label.  `ast.Pass()` is `node "Pass" none []` and
`ast.Module(body=[...])` is `node "Module" none [...]`; the mutated nodes
the operators create are unlabelled, exactly as the fresh Python objects are
absent from the statement table. -/

inductive PyAST where
  | node (kind : String) (sid : Option Nat) (children : List PyAST)

/-- The statement table `statements : sid → AST` and the overlay
`mutations : sid → AST` are Python dicts with integer keys. -/
abbrev Statements := List (Nat × PyAST)

/-- Dict lookup with integer keys (`d.get(k)` / `d[k]`). -/
def ovLookup : Statements → Nat → Option PyAST
  | [], _ => none
  | (k, v) :: rest, key => if key = k then some v else ovLookup rest key

/-- Dict write `d[k] = v`: replace the existing entry or append. -/
def ovInsert : Statements → Nat → PyAST → Statements
  | [], key, v => [(key, v)]
  | (k, v') :: rest, key, v =>
    if key = k then (key, v) :: rest else (k, v') :: ovInsert rest key v

mutual

/-- The statement table extracted from a file's tree: every labelled node,
with its sid, in pre-order (the statement index's traversal). -/
def collectStatements : PyAST → Statements
  | .node k os ch =>
    (match os with
     | some i => [(i, .node k os ch)]
     | none => []) ++ collectStatementsList ch

/-- Pre-order collection over a child list. -/
def collectStatementsList : List PyAST → Statements
  | [] => []
  | t :: ts => collectStatements t ++ collectStatementsList ts

end

/-- The per-operator `mutate` methods over the overlay, for the
statement-block operators.  Reading a statement is
`mutations.get(sid, statements[sid])`: the default `statements[sid]` is
evaluated first and raises `KeyError` (here `none`) when the sid is not in
the table.  The expression-level kinds (`Replace*Operator`, `ModifyIf*`),
`Rename`, `InsertReturn*` and `ReplaceCardumen` rewrite concrete Python
expression grammar, draw randomness inside `mutate`, or splice template
trees; they are outside this embedding — no theorem below applies them —
and are mapped to `none`. -/
def Op.mutate (op : Op) (M S : Statements) : Option Statements :=
  match op with
  | .Delete t => some (ovInsert M t (.node "Pass" none []))
  | .InsertBefore t s => do
    let st ← ovLookup S t
    let ss ← ovLookup S s
    some (ovInsert M t
      (.node "Module" none [(ovLookup M s).getD ss, (ovLookup M t).getD st]))
  | .InsertAfter t s => do
    let st ← ovLookup S t
    let ss ← ovLookup S s
    some (ovInsert M t
      (.node "Module" none [(ovLookup M t).getD st, (ovLookup M s).getD ss]))
  | .InsertBoth t s before => do
    let st ← ovLookup S t
    let ss ← ovLookup S s
    some (ovInsert M t (if before then
      .node "Module" none [(ovLookup M s).getD ss, (ovLookup M t).getD st]
    else
      .node "Module" none [(ovLookup M t).getD st, (ovLookup M s).getD ss]))
  | .Replace t s => do
    let ss ← ovLookup S s
    some (ovInsert M t ((ovLookup M s).getD ss))
  | .MoveBefore t s => do
    let st ← ovLookup S t
    let ss ← ovLookup S s
    let this := (ovLookup M t).getD st
    let other := (ovLookup M s).getD ss
    some (ovInsert (ovInsert M t (.node "Module" none [other, this])) s
      (.node "Pass" none []))
  | .MoveAfter t s => do
    let st ← ovLookup S t
    let ss ← ovLookup S s
    let this := (ovLookup M t).getD st
    let other := (ovLookup M s).getD ss
    some (ovInsert (ovInsert M t (.node "Module" none [this, other])) s
      (.node "Pass" none []))
  | .MoveBoth t s before => do
    let st ← ovLookup S t
    let ss ← ovLookup S s
    let this := (ovLookup M t).getD st
    let other := (ovLookup M s).getD ss
    some (ovInsert (ovInsert M t (if before then
        .node "Module" none [other, this]
      else
        .node "Module" none [this, other])) s
      (.node "Pass" none []))
  | .Swap t s => do
    let st ← ovLookup S t
    let ss ← ovLookup S s
    let this := (ovLookup M t).getD st
    let other := (ovLookup M s).getD ss
    some (ovInsert (ovInsert M t other) s this)
  | .Copy t => do
    let st ← ovLookup S t
    let cur := (ovLookup M t).getD st
    some (ovInsert M t (.node "Module" none [cur, cur]))
  | _ => none

/-- `Mutator.__init__`'s loop: execute each operator's `mutate` left to
right, starting from an empty overlay. -/
def applyMutations (S : Statements) (ops : List Op) : Option Statements :=
  ops.foldlM (fun M op => op.mutate M S) []

mutual

/-- `Mutator.mutate` / `generic_visit`: materialise the overlay into the
tree.  A node whose statement object is a key of `mutation_map` — here, a
node whose sid label is a key of the overlay — is replaced by its overlay
image without visiting the replacement; all other nodes are rebuilt with
materialised children. -/
def materialize (M : Statements) : PyAST → PyAST
  | .node k os ch =>
    match os.bind (ovLookup M) with
    | some a => a
    | none => .node k os (materializeList M ch)

/-- Materialisation over a child list. -/
def materializeList (M : Statements) : List PyAST → List PyAST
  | [] => []
  | t :: ts => materialize M t :: materializeList M ts

end

/-- Association-list lookup of a member pair under distinct keys. -/
theorem ovLookup_of_mem_nodup :
    ∀ (l : Statements) (k : Nat) (n : PyAST),
      (l.map Prod.fst).Nodup → (k, n) ∈ l → ovLookup l k = some n := by
  intro l
  induction l with
  | nil => intro k n _ h; simp at h
  | cons e rest ih =>
    obtain ⟨k₀, v₀⟩ := e
    intro k n hnodup hmem
    simp only [List.map_cons, List.nodup_cons] at hnodup
    rcases List.mem_cons.mp hmem with heq | hmem'
    · cases heq
      simp [ovLookup]
    · have hk : k ≠ k₀ := by
        rintro rfl
        exact hnodup.1 (List.mem_map.mpr ⟨(k, n), hmem', rfl⟩)
      simpa [ovLookup, hk] using ih k n hnodup.2 hmem'

/-- Lookup through a dict write. -/
theorem ovLookup_ovInsert :
    ∀ (l : Statements) (k k' : Nat) (v : PyAST),
      ovLookup (ovInsert l k v) k' = if k' = k then some v else ovLookup l k' := by
  intro l
  induction l with
  | nil => intro k k' v; simp [ovInsert, ovLookup]
  | cons e rest ih =>
    obtain ⟨k₀, v₀⟩ := e
    intro k k' v
    by_cases hk : k = k₀
    · subst hk
      simp only [ovInsert, if_pos rfl]
      by_cases hk' : k' = k
      · simp [ovLookup, hk']
      · simp [ovLookup, hk']
    · simp only [ovInsert, if_neg hk]
      by_cases hk' : k' = k₀
      · subst hk'
        have hne : k' ≠ k := fun h => hk h.symm
        simp [ovLookup, hne]
      · simp [ovLookup, hk', ih]

mutual

/-- If the overlay maps every sid it contains to the labelled subtree
carrying that sid, materialisation is the identity. -/
theorem materialize_id (M : Statements) :
    ∀ t : PyAST,
      (∀ p ∈ collectStatements t, ∀ a, ovLookup M p.1 = some a → a = p.2) →
      materialize M t = t
  | .node k os ch, h => by
    simp only [materialize]
    cases hos : os.bind (ovLookup M) with
    | some a =>
      cases os with
      | none => simp at hos
      | some i =>
        have hmem : (i, PyAST.node k (some i) ch) ∈
            collectStatements (.node k (some i) ch) := by
          simp only [collectStatements]
          exact List.mem_append.mpr (Or.inl (List.mem_singleton.mpr rfl))
        exact h _ hmem a (by simpa using hos)
    | none =>
      have hch : ∀ p ∈ collectStatementsList ch, ∀ a,
          ovLookup M p.1 = some a → a = p.2 := by
        intro p hp
        apply h
        simp only [collectStatements]
        exact List.mem_append.mpr (Or.inr hp)
      rw [materializeList_id M ch hch]

/-- If the overlay maps every sid it contains to the labelled subtree
carrying that sid, materialisation fixes every child list. -/
theorem materializeList_id (M : Statements) :
    ∀ ts : List PyAST,
      (∀ p ∈ collectStatementsList ts, ∀ a, ovLookup M p.1 = some a → a = p.2) →
      materializeList M ts = ts
  | [], _ => by simp only [materializeList]
  | t :: ts, h => by
    simp only [materializeList]
    have h₁ : ∀ p ∈ collectStatements t, ∀ a, ovLookup M p.1 = some a → a = p.2 := by
      intro p hp
      apply h
      simp only [collectStatementsList]
      exact List.mem_append.mpr (Or.inl hp)
    have h₂ : ∀ p ∈ collectStatementsList ts, ∀ a,
        ovLookup M p.1 = some a → a = p.2 := by
      intro p hp
      apply h
      simp only [collectStatementsList]
      exact List.mem_append.mpr (Or.inr hp)
    rw [materialize_id M t h₁, materializeList_id M ts h₂]

end

/-- C10: `Swap` is self-inverse.  For every file tree with distinct sid
labels and any two distinct sids `t` and `s` present in its statement table,
applying the op list `[Swap(t,s), Swap(t,s)]` to the empty overlay succeeds,
and materialising the result yields a tree identical to the original: each
swap reads both statements' pre-swap snapshots before writing either, so the
second swap restores the first's exchange. -/
theorem swap_self_inverse (tree : PyAST) (t s : Nat) (st ss : PyAST)
    (hnodup : ((collectStatements tree).map Prod.fst).Nodup)
    (hts : t ≠ s)
    (ht : ovLookup (collectStatements tree) t = some st)
    (hs : ovLookup (collectStatements tree) s = some ss) :
    ∃ M, applyMutations (collectStatements tree) [.Swap t s, .Swap t s] = some M ∧
      materialize M tree = tree := by
  set S := collectStatements tree with hS
  set M1 := ovInsert (ovInsert [] t ss) s st with hM1
  set M2 := ovInsert (ovInsert M1 t st) s ss with hM2
  have hM1t : ovLookup M1 t = some ss := by
    rw [hM1, ovLookup_ovInsert, ovLookup_ovInsert]
    simp [hts]
  have hM1s : ovLookup M1 s = some st := by
    rw [hM1, ovLookup_ovInsert]
    simp
  have h1 : Op.mutate (.Swap t s) [] S = some M1 := by
    simp [Op.mutate, ht, hs, ovLookup, hM1]
  have h2 : Op.mutate (.Swap t s) M1 S = some M2 := by
    simp [Op.mutate, ht, hs, hM1t, hM1s, hM2]
  have hstep : applyMutations S [.Swap t s, .Swap t s] = some M2 := by
    simp [applyMutations, List.foldlM, h1, h2]
  have hM2look : ∀ k : Nat, ovLookup M2 k =
      if k = s then some ss else if k = t then some st else none := by
    intro k
    rw [hM2, ovLookup_ovInsert, ovLookup_ovInsert, hM1, ovLookup_ovInsert,
      ovLookup_ovInsert]
    rcases eq_or_ne k s with rfl | hks
    · simp
    · rcases eq_or_ne k t with rfl | hkt
      · simp [hks]
      · simp [hks, hkt, ovLookup]
  refine ⟨M2, hstep, materialize_id M2 tree ?_⟩
  rintro ⟨k, n⟩ hmem a ha
  have hlook : ovLookup S k = some n := ovLookup_of_mem_nodup S k n hnodup hmem
  rw [hM2look k] at ha
  rcases eq_or_ne k s with rfl | hks
  · rw [if_pos rfl] at ha
    rw [hlook] at hs
    cases hs
    simpa using ha.symm
  · rw [if_neg hks] at ha
    rcases eq_or_ne k t with rfl | hkt
    · rw [if_pos rfl] at ha
      rw [hlook] at ht
      cases ht
      simpa using ha.symm
    · rw [if_neg hkt] at ha
      exact absurd ha (by simp)

/-- C10 (witness): the theorem applied to a two-statement module with sids 0
and 1: swapping twice and materialising returns the original tree. -/
theorem swap_self_inverse_witness :
    ∃ M,
      applyMutations
          (collectStatements
            (.node "Module" none
              [.node "Assign" (some 0) [], .node "Return" (some 1) []]))
          [.Swap 0 1, .Swap 0 1] = some M ∧
        materialize M
            (.node "Module" none
              [.node "Assign" (some 0) [], .node "Return" (some 1) []]) =
          (.node "Module" none
            [.node "Assign" (some 0) [], .node "Return" (some 1) []]) := by
  refine swap_self_inverse _ 0 1 (.node "Assign" (some 0) [])
    (.node "Return" (some 1) []) ?_ (by decide) ?_ ?_
  · simp [collectStatements, collectStatementsList]
  · simp [collectStatements, collectStatementsList, ovLookup]
  · simp [collectStatements, collectStatementsList, ovLookup]

/-! ## Exhaustive search (`fixkit/search/search.py`,
`pyrep/localization/location.py`)

`ExhaustiveStrategy` is constructed with the operator classes and the
repair's suggestions — a list of `WeightedIdentifier`s, which carry exactly
the attributes `identifier` and `weight`.  `_mutate` iterates over a copy of
the population, over every suggestion of positive weight and over every
operator class, cloning the candidate and appending
`operator(location.line, self.choices)` — but `WeightedIdentifier` has no
attribute `line`, so that access raises `AttributeError`.  Attribute access
is modelled as an `Option`-valued projection; the candidate is represented
by its op list (the only error-free step before the failing access is the
clone). -/

structure WeightedIdentifier where
  identifier : Nat
  weight : ℚ

/-- The attribute access `location.line` on a `WeightedIdentifier`: the
class defines only `identifier` and `weight`, so the access raises
`AttributeError` (`none`) on every instance. -/
def WeightedIdentifier.lineAttr : WeightedIdentifier → Option Nat :=
  fun _ => none

/-- `ExhaustiveStrategy._mutate`: for every candidate of the incoming
population, every suggestion with `weight > 0` and every operator class,
clone the candidate, append `operator(location.line, choices)` to the clone
and append the clone to the population.  The first `location.line` access
aborts the whole call with `AttributeError`. -/
def ExhaustiveStrategy.runMutate (operators : List (Nat → Op))
    (suggestions : List WeightedIdentifier) (population : List (List Op)) :
    Option (List (List Op)) := do
  let extra ← population.foldlM
    (fun acc cand =>
      suggestions.foldlM
        (fun acc2 loc =>
          if loc.weight > 0 then
            operators.foldlM
              (fun acc3 op => do
                let line ← loc.lineAttr
                pure (acc3 ++ [cand ++ [op line]]))
              acc2
          else pure acc2)
        acc)
    []
  pure (population ++ extra)

/-- C7 (failing input): one suggestion of weight 1 for sid 0, the "kali"
operator set `{Delete, ModifyIfToTrue, ModifyIfToFalse, InsertReturn0}`, and
a population holding only the initial candidate.  Instead of appending four
offspring targeting the suggestion's statement identifier, `_mutate` raises
`AttributeError`: it reads `location.line`, an attribute `WeightedIdentifier`
does not have (its sid is in `location.identifier`). -/
theorem exhaustive_mutate_attribute_error :
    ExhaustiveStrategy.runMutate
        [Op.Delete, Op.ModifyIfToTrue, Op.ModifyIfToFalse, Op.InsertReturn0]
        [⟨0, 1⟩] [[]] = none := by
  norm_num [ExhaustiveStrategy.runMutate, List.foldlM,
    WeightedIdentifier.lineAttr]

end Fixkit
